import Mathlib

/-!
Verification of the LogFinder pipeline (src/log_finder.py).

Strings are modelled as lists of characters (`Str`).  The Python string
primitives used by the source (`str.endswith`, `str.startswith` behaviour of
`re.match` with a literal, the `in` substring test, `str.strip`,
`os.path.basename`) are embedded as executable functions on `Str`.  The two
regular expressions of the source, which are only used through `re.match`,
are embedded as executable scanners with Python semantics: `.` does not match
a newline, `\d` matches a decimal digit, `$` matches at the end of the string
or just before a final trailing newline, and `re.match` anchors at the start
of the string only (a prefix of the input may match, trailing text is
ignored).
-/

namespace LogFinder

abbrev Str := List Char

/-- Character list of a string literal (used to write `Str` constants). -/
def str (s : String) : Str := s.data

/-- Python decimal digit test for the regex class `\d` (ASCII model). -/
def isDigitC (c : Char) : Bool := '0' ≤ c && c ≤ '9'

/-- Python whitespace characters stripped by `str.strip()` (ASCII model). -/
def isPySpace (c : Char) : Bool :=
  c == ' ' || c == '\t' || c == '\n' || c == '\r' ||
  c == Char.ofNat 11 || c == Char.ofNat 12

/-- `str.strip()`: remove leading and trailing whitespace. -/
def pyStrip (s : Str) : Str :=
  ((s.dropWhile isPySpace).reverse.dropWhile isPySpace).reverse

/-- `s.startswith(p)` (also: `re.match` of a literal pattern `p`). -/
def pyStartswith : Str → Str → Bool
  | [], _ => true
  | _ :: _, [] => false
  | a :: as', b :: bs => a == b && pyStartswith as' bs

/-- `s.endswith(p)`. -/
def pyEndswith (p s : Str) : Bool := pyStartswith p.reverse s.reverse

/-- Python substring containment `needle in haystack`. -/
def pyContains (needle : Str) : Str → Bool
  | [] => needle.isEmpty
  | c :: rest => pyStartswith needle (c :: rest) || pyContains needle rest

/-- `os.path.basename`: the part of the path after the last slash. -/
def pyBasename (p : Str) : Str :=
  p.foldl (fun acc c => if c == '/' then [] else acc ++ [c]) []

/-! Embedding of the regex `.*\.log\.gz_\d+` used via `re.match`
(`find_log_files`, `find_compressed_log_files`, `is_compressed_file`). -/

/-- Head character of the remaining input is a `\d` digit. -/
def headDigit : Str → Bool
  | [] => false
  | c :: _ => isDigitC c

/-- The tail `\.log\.gz_\d+` of the rotated-compressed regex matches at the
current position (the literal, then at least one digit; no end anchor, so a
single following digit suffices). -/
def rotGzAt (s : Str) : Bool :=
  pyStartswith (str ".log.gz_") s && headDigit (s.drop 8)

/-- `re.match(".*\.log\.gz_\d+", s)` succeeds: `.*` consumes any run of
non-newline characters before the literal. -/
def rotGzMatch : Str → Bool
  | [] => false
  | c :: rest => rotGzAt (c :: rest) || (!(c == '\n') && rotGzMatch rest)

/-! Embedding of the regex `.*\.log_\d+$` used via `re.match`
(`find_log_files`, rotated plain logs). -/

/-- After the first digit of `\d+$`: the rest of the input must be digits up
to the end of the string or up to a single final trailing newline (Python
`$` semantics). -/
def restDigits : Str → Bool
  | [] => true
  | c :: rest => if c = '\n' then rest.isEmpty else isDigitC c && restDigits rest

/-- `\d+$` matches the whole remaining input. -/
def digitRunEnd : Str → Bool
  | [] => false
  | c :: rest => isDigitC c && restDigits rest

/-- The tail `\.log_\d+$` of the rotated-plain regex matches at the current
position. -/
def rotPlainAt (s : Str) : Bool :=
  pyStartswith (str ".log_") s && digitRunEnd (s.drop 5)

/-- `re.match(".*\.log_\d+$", s)` succeeds. -/
def rotPlainMatch : Str → Bool
  | [] => false
  | c :: rest => rotPlainAt (c :: rest) || (!(c == '\n') && rotPlainMatch rest)

/-! File classification (src/log_finder.py, `find_log_files`,
`find_compressed_log_files`, `find_tar_gz_files`, `is_compressed_file`). -/

/-- Per-filename test of `find_log_files`: `.log` files that do not match the
rotated-compressed pattern, or rotated plain logs `\.log_\d+$`. -/
def isUncompressedLogName (file : Str) : Bool :=
  (pyEndswith (str ".log") file && !(rotGzMatch file)) || rotPlainMatch file

/-- Per-filename test of `find_compressed_log_files`: `.gz` files that are
not `.tar.gz`, or rotated compressed logs `\.log\.gz_\d+`. -/
def isCompressedLogName (file : Str) : Bool :=
  (pyEndswith (str ".gz") file && !(pyEndswith (str ".tar.gz") file)) ||
  rotGzMatch file

/-- `is_compressed_file`: basename ends with `.gz` or matches the
rotated-compressed pattern. -/
def is_compressed_file (file_path : Str) : Bool :=
  pyEndswith (str ".gz") (pyBasename file_path) ||
  rotGzMatch (pyBasename file_path)

/-! Line searcher (src/log_finder.py, `search_in_file`).

A file read is embedded as the sequence of text lines that the line
iterator yields, together with a flag saying whether an I/O error is raised
after those lines (an error raised by `open`/`gzip.open` itself corresponds
to an empty line sequence with the flag set).  Decoding never fails because
the source opens files with a lossy decoding policy.  The compressed and the
uncompressed branch of `search_in_file` run the same per-line loop, so the
loop is embedded once. -/

/-- A Match Record: 1-based line number, stripped line text, matched
pattern. -/
abbrev MatchRec := Nat × Str × Str

/-- One file's read outcome: the lines yielded before a possible I/O
failure, and whether a failure is then raised. -/
structure FileRead where
  lines : List Str
  failed : Bool

/-- The inner `for pattern in search_patterns` loop with its `break`: the
first pattern (in list order) contained in the line, if any. -/
def firstMatch (patterns : List Str) (line : Str) : Option Str :=
  match patterns with
  | [] => none
  | p :: ps => if pyContains p line then some p else firstMatch ps line

/-- Match records produced by the per-line loop on a list of lines, the
first line being numbered `n`. -/
def searchLines (patterns : List Str) (n : Nat) : List Str → List MatchRec
  | [] => []
  | l :: ls =>
    match firstMatch patterns l with
    | some p => (n, pyStrip l, p) :: searchLines patterns (n + 1) ls
    | none => searchLines patterns (n + 1) ls

/-- The `try` body of `search_in_file`: iterate over the yielded lines
accumulating `matches`; if the iterator then raises, the exception carries
the accumulated list (`Sum.inr`), otherwise the loop ends normally
(`Sum.inl`). -/
def runSearchLoop (patterns : List Str) (acc : List MatchRec) (n : Nat)
    (lines : List Str) (failed : Bool) : Sum (List MatchRec) (List MatchRec) :=
  match lines with
  | [] => if failed then Sum.inr acc else Sum.inl acc
  | l :: ls =>
    runSearchLoop patterns
      (acc ++ (match firstMatch patterns l with
               | some p => [(n, pyStrip l, p)]
               | none => []))
      (n + 1) ls failed

/-- `search_in_file`: run the loop; the `except` clause catches any raised
error, prints a warning, and falls through to `return matches`, so both
outcomes return the accumulated match list. -/
def search_in_file (patterns : List Str) (content : FileRead) : List MatchRec :=
  match runSearchLoop patterns [] 1 content.lines content.failed with
  | Sum.inl ms => ms
  | Sum.inr ms => ms

/-! Timestamp pattern expander (src/log_finder.py, `parse_timestamp_input`).

The regex `(\d{4})-(\d{2})-(\d{2})-(\d{2})\.(\d{2})\.(\d{2})\.(\d+)` is used
via `re.match`, so it matches a prefix of the input; it is embedded as a
deterministic parser (every piece of the pattern is fixed-length except the
final greedy `(\d+)`, which nothing follows, so no backtracking arises). -/

/-- Consume exactly `n` digits, returning them and the rest. -/
def splitDigits : Nat → Str → Option (Str × Str)
  | 0, s => some ([], s)
  | _ + 1, [] => none
  | n + 1, c :: rest =>
    if isDigitC c then
      (splitDigits n rest).map (fun dr => (c :: dr.1, dr.2))
    else none

/-- Consume one expected literal character. -/
def expectChar (c : Char) : Str → Option Str
  | [] => none
  | x :: rest => if x == c then some rest else none

/-- Consume one or more digits, greedily. -/
def takeDigits1 (s : Str) : Option (Str × Str) :=
  match s.takeWhile isDigitC with
  | [] => none
  | d :: ds => some (d :: ds, s.dropWhile isDigitC)

/-- The seven capture groups of the timestamp regex, when a prefix of the
input matches. -/
def tsMatch (s : Str) : Option (Str × Str × Str × Str × Str × Str × Str) := do
  let (y, s) ← splitDigits 4 s
  let s ← expectChar '-' s
  let (mo, s) ← splitDigits 2 s
  let s ← expectChar '-' s
  let (d, s) ← splitDigits 2 s
  let s ← expectChar '-' s
  let (h, s) ← splitDigits 2 s
  let s ← expectChar '.' s
  let (mi, s) ← splitDigits 2 s
  let s ← expectChar '.' s
  let (se, s) ← splitDigits 2 s
  let s ← expectChar '.' s
  let (frac, _) ← takeDigits1 s
  pure (y, mo, d, h, mi, se, frac)

/-- The final dedup loop of `parse_timestamp_input`: keep the first
occurrence of each pattern, preserving order. -/
def pyUnique (l : List Str) : List Str :=
  l.foldl (fun acc p => if acc.contains p then acc else acc ++ [p]) []

/-- `parse_timestamp_input`: the original string, then (when the regex
matches) the five derived formats, deduplicated preserving order.  The
source's `try`/`except` cannot fire: the regex match raises no exception. -/
def parse_timestamp_input (timestamp_str : Str) : List Str :=
  let patterns :=
    match tsMatch timestamp_str with
    | some (y, mo, d, h, mi, se, _) =>
      [timestamp_str,
       y ++ str "-" ++ mo ++ str "-" ++ d ++ str "T" ++ h ++ str ":" ++ mi ++ str ":" ++ se,
       y ++ str "-" ++ mo ++ str "-" ++ d ++ str " " ++ h ++ str "." ++ mi ++ str "." ++ se,
       y ++ str "-" ++ mo ++ str "-" ++ d ++ str " " ++ h ++ str ":" ++ mi ++ str ":" ++ se,
       y ++ mo ++ d ++ h ++ mi ++ se,
       mo ++ str "/" ++ d ++ str "/" ++ y ++ str " " ++ h ++ str ":" ++ mi ++ str ":" ++ se]
    | none => [timestamp_str]
  pyUnique patterns

/-! Directory walking and the main pipeline wiring (src/log_finder.py,
`find_log_files`, `find_compressed_log_files`, `find_tar_gz_files`,
`main`).

A filesystem snapshot is embedded as the list of full file paths, in walk
order; `os.walk(root)` enumerates exactly the files whose path extends
`root ++ "/"`.  The transient temporary directory of `main` is a path
parameter `tmp`; `main` extracts every discovered nested archive into the
shared directory `tmp ++ "/extracted_content"` and classifies only inside
that directory. -/

/-- Files enumerated by `os.walk(root)` (full paths, walk order). -/
def osWalkFiles (root : Str) (fs : List Str) : List Str :=
  fs.filter (fun p => pyStartswith (root ++ str "/") p)

/-- `find_log_files(directory)`. -/
def find_log_files (directory : Str) (fs : List Str) : List Str :=
  (osWalkFiles directory fs).filter (fun p => isUncompressedLogName (pyBasename p))

/-- `find_compressed_log_files(directory)`. -/
def find_compressed_log_files (directory : Str) (fs : List Str) : List Str :=
  (osWalkFiles directory fs).filter (fun p => isCompressedLogName (pyBasename p))

/-- `find_tar_gz_files(directory)`. -/
def find_tar_gz_files (directory : Str) (fs : List Str) : List Str :=
  (osWalkFiles directory fs).filter (fun p => pyEndswith (str ".tar.gz") (pyBasename p))

/-- The shared second-stage extraction directory `extracted_content` created
inside the temporary directory. -/
def extractionDirOf (tmp : Str) : Str := tmp ++ str "/extracted_content"

/-- A nested `.tar.gz` archive as seen by the step-2 loop of `main`: whether
its extraction succeeds, and the member paths (relative to the extraction
directory) it contributes when it does. -/
structure NestedArchive where
  ok : Bool
  members : List Str

/-- The step-2 loop of `main`: each archive that extracts successfully adds
its members under the extraction directory; a failing archive is caught,
logged and skipped, and the loop continues. -/
def extractArchives (tmp : Str) : List NestedArchive → List Str
  | [] => []
  | a :: rest =>
    (if a.ok then a.members.map (fun m => extractionDirOf tmp ++ str "/" ++ m) else []) ++
    extractArchives tmp rest

/-- Step 3 of `main`: `log_files + compressed_log_files`, both classified
from the extraction directory only. -/
def all_log_files (tmp : Str) (fs : List Str) : List Str :=
  find_log_files (extractionDirOf tmp) fs ++
  find_compressed_log_files (extractionDirOf tmp) fs

/-- Step 4 of `main`: search every classified file, keeping the files with
at least one match (paired with their match lists). -/
def searchResults (files : List Str) (patterns : List Str)
    (readF : Str → FileRead) : List (Str × List MatchRec) :=
  (files.map (fun f => (f, search_in_file patterns (readF f)))).filter
    (fun r => !r.2.isEmpty)

/-- Steps 2-4 of `main` composed: extract the nested archives into the
extraction directory next to the pre-existing files, classify inside the
extraction directory, and search. -/
def pipelineResults (tmp : Str) (baseFs : List Str)
    (archives : List NestedArchive) (patterns : List Str)
    (readF : Str → FileRead) : List (Str × List MatchRec) :=
  searchResults (all_log_files tmp (baseFs ++ extractArchives tmp archives))
    patterns readF

/-! Step 1 of `main`: input dispatch. -/

/-- Outcome of the step-1 `if`/`elif`/`else` on the input path. -/
inductive Step1Result
  | extractedTar
  | useDirectory
  | invalidInput
deriving DecidableEq

/-- Step 1 of `main`: a file is extracted as the top-level archive only when
its name ends with `.tar`; otherwise a directory is used directly; anything
else is rejected. -/
def step1 (isFile : Bool) (isDir : Bool) (input_path : Str) : Step1Result :=
  if isFile && pyEndswith (str ".tar") input_path then Step1Result.extractedTar
  else if isDir then Step1Result.useDirectory
  else Step1Result.invalidInput

/-- Content kind of an input file, as the spec describes it. -/
inductive ArchiveKind
  | plainTar
  | tarGz
  | notArchive
deriving DecidableEq

/-- Modelled from the Python standard library: `tarfile.open(path, "r")`
(used by `extract_tar_file`) auto-detects compression, so it reads both a
plain tar and a gzip-compressed tar, and fails on anything else. -/
def tarOpenReadOk (k : ArchiveKind) : Bool :=
  match k with
  | ArchiveKind.plainTar => true
  | ArchiveKind.tarGz => true
  | ArchiveKind.notArchive => false

/-- Modelled from the spec: a top-level file input is accepted exactly when
it is a tar-format archive of either detected kind (`plain-tar` or
`tar-gz`).  Stated for refinement comparison with `step1`. -/
def specTopLevelAccept (k : ArchiveKind) : Bool :=
  match k with
  | ArchiveKind.plainTar => true
  | ArchiveKind.tarGz => true
  | ArchiveKind.notArchive => false

/-! Report rendering (src/log_finder.py, `main`, step 6). -/

/-- The compressed/uncompressed tag written next to a file in `result.txt`:
substring containment of `.gz` or `.log.gz_` in the file's relative path. -/
def reportFileType (relPath : Str) : Str :=
  if pyContains (str ".gz") relPath || pyContains (str ".log.gz_") relPath
  then str "compressed" else str "uncompressed"

/-! Output directory lifecycle (src/log_finder.py, `main`, steps before the
temporary directory and steps 5-6).  The output directory is embedded as
the list of entry paths (relative to the output directory) it contains. -/

/-- `shutil.rmtree(output_dir)`: every entry is removed. -/
def rmRF (_st : List Str) : List Str := []

/-- `os.makedirs` of a directory entry inside the output directory. -/
def mkdirEntry (name : Str) (st : List Str) : List Str := st ++ [name]

/-- The output-directory setup of `main`: if the directory exists it is
removed wholesale, then it is recreated and `extracted_logs` is created
inside it (`pre` is its prior content when it existed). -/
def setupOutputDir (existed : Bool) (pre : List Str) : List Str :=
  mkdirEntry (str "extracted_logs") (if existed then rmRF pre else [])

/-- `copy_matching_files`: each matching file is copied under
`extracted_logs/` at its path relative to the extraction directory. -/
def copy_matching_files (rels : List Str) (st : List Str) : List Str :=
  st ++ rels.map (fun r => str "extracted_logs/" ++ r)

/-- Step 6 of `main`: `result.txt` is written into the output directory. -/
def writeResultFile (st : List Str) : List Str := st ++ [str "result.txt"]

/-- The output directory's content after a completed run. -/
def finalOutputDir (existed : Bool) (pre : List Str)
    (matchedRels : List Str) : List Str :=
  writeResultFile (copy_matching_files matchedRels (setupOutputDir existed pre))

/-! Helper lemmas about the embedded string primitives. -/

theorem pyStartswith_iff (p : Str) : ∀ s : Str, pyStartswith p s = true ↔ ∃ t, s = p ++ t := by
  induction p with
  | nil => intro s; simp [pyStartswith]
  | cons a as ih =>
    intro s
    cases s with
    | nil => simp [pyStartswith]
    | cons b bs =>
      simp only [pyStartswith, Bool.and_eq_true, beq_iff_eq, ih bs, List.cons_append,
        List.cons.injEq]
      constructor
      · rintro ⟨rfl, t, rfl⟩
        exact ⟨t, rfl, rfl⟩
      · rintro ⟨t, rfl, rfl⟩
        exact ⟨rfl, t, rfl⟩

theorem pyEndswith_iff (p s : Str) : pyEndswith p s = true ↔ ∃ t, s = t ++ p := by
  unfold pyEndswith
  rw [pyStartswith_iff]
  constructor
  · rintro ⟨u, hu⟩
    refine ⟨u.reverse, ?_⟩
    have h2 := congrArg List.reverse hu
    simpa [List.reverse_append] using h2
  · rintro ⟨t, rfl⟩
    exact ⟨t.reverse, by simp [List.reverse_append]⟩

theorem pyContains_iff (n : Str) : ∀ h : Str, pyContains n h = true ↔ ∃ a b, h = a ++ n ++ b := by
  intro h
  induction h with
  | nil =>
    simp only [pyContains, List.isEmpty_iff]
    constructor
    · rintro rfl
      exact ⟨[], [], rfl⟩
    · rintro ⟨a, b, hab⟩
      rcases List.append_eq_nil.mp hab.symm with ⟨h1, rfl⟩
      rcases List.append_eq_nil.mp h1 with ⟨rfl, rfl⟩
      rfl
  | cons c rest ih =>
    simp only [pyContains, Bool.or_eq_true, pyStartswith_iff, ih]
    constructor
    · rintro (⟨t, ht⟩ | ⟨a, b, hab⟩)
      · exact ⟨[], t, by simpa using ht⟩
      · exact ⟨c :: a, b, by simp [hab]⟩
    · rintro ⟨a, b, hab⟩
      cases a with
      | nil => exact Or.inl ⟨b, by simpa using hab⟩
      | cons x xs =>
        right
        simp only [List.cons_append, List.cons.injEq] at hab
        exact ⟨xs, b, hab.2⟩

theorem contains_trans (m n p : Str) (h1 : pyContains m n = true)
    (h2 : pyContains n p = true) : pyContains m p = true := by
  rcases (pyContains_iff _ _).mp h1 with ⟨a, b, rfl⟩
  rcases (pyContains_iff _ _).mp h2 with ⟨x, y, rfl⟩
  exact (pyContains_iff _ _).mpr ⟨x ++ a, b ++ y, by simp⟩

theorem contains_mono_suffix (needle b rel : Str) (hsuf : pyEndswith b rel = true)
    (h : pyContains needle b = true) : pyContains needle rel = true := by
  rcases (pyEndswith_iff _ _).mp hsuf with ⟨t, rfl⟩
  rcases (pyContains_iff _ _).mp h with ⟨x, y, rfl⟩
  exact (pyContains_iff _ _).mpr ⟨t ++ x, y, by simp⟩

theorem contains_gz_of_endsWith_gz (f : Str) (h : pyEndswith (str ".gz") f = true) :
    pyContains (str ".gz") f = true := by
  rcases (pyEndswith_iff _ f).mp h with ⟨t, rfl⟩
  exact (pyContains_iff _ _).mpr ⟨t, [], by simp⟩

/-! Last-character lemmas: the various filename suffix patterns force the
final character of the name, which makes the patterns mutually exclusive. -/

theorem revHead_of_endsWith (p s : Str) (c : Char) (u : Str)
    (hp : p.reverse = c :: u) (h : pyEndswith p s = true) :
    s.reverse.head? = some c := by
  rcases (pyEndswith_iff p s).mp h with ⟨t, rfl⟩
  simp [List.reverse_append, hp]

theorem endsWith_log_last (s : Str) (h : pyEndswith (str ".log") s = true) :
    s.reverse.head? = some 'g' :=
  revHead_of_endsWith (str ".log") s 'g' (str "ol.") (by decide) h

theorem endsWith_gz_last (s : Str) (h : pyEndswith (str ".gz") s = true) :
    s.reverse.head? = some 'z' :=
  revHead_of_endsWith (str ".gz") s 'z' (str "g.") (by decide) h

theorem tarGz_endsWith_gz (f : Str) (h : pyEndswith (str ".tar.gz") f = true) :
    pyEndswith (str ".gz") f = true := by
  rcases (pyEndswith_iff _ f).mp h with ⟨t, rfl⟩
  refine (pyEndswith_iff _ _).mpr ⟨t ++ str ".tar", ?_⟩
  have hsplit : str ".tar.gz" = str ".tar" ++ str ".gz" := by decide
  rw [hsplit, List.append_assoc]

theorem restDigits_snoc : ∀ r : Str, restDigits r = true →
    r = [] ∨ ∃ u c, r = u ++ [c] ∧ (isDigitC c = true ∨ c = '\n')
  | [], _ => Or.inl rfl
  | c :: rest, h => by
    by_cases hc : c = '\n'
    · subst hc
      have hrest : rest = [] := by
        have h2 : rest.isEmpty = true := by simpa [restDigits] using h
        exact List.isEmpty_iff.mp h2
      subst hrest
      exact Or.inr ⟨[], '\n', rfl, Or.inr rfl⟩
    · have h2 : isDigitC c = true ∧ restDigits rest = true := by
        simpa [restDigits, hc, Bool.and_eq_true] using h
      rcases restDigits_snoc rest h2.2 with rfl | ⟨u, c2, hu, hc2⟩
      · exact Or.inr ⟨[], c, rfl, Or.inl h2.1⟩
      · exact Or.inr ⟨c :: u, c2, by simp [hu], hc2⟩

theorem digitRunEnd_snoc (t : Str) (h : digitRunEnd t = true) :
    ∃ u c, t = u ++ [c] ∧ (isDigitC c = true ∨ c = '\n') := by
  cases t with
  | nil => simp [digitRunEnd] at h
  | cons c rest =>
    have h2 : isDigitC c = true ∧ restDigits rest = true := by
      simpa [digitRunEnd, Bool.and_eq_true] using h
    rcases restDigits_snoc rest h2.2 with rfl | ⟨u, c2, hu, hc2⟩
    · exact ⟨[], c, rfl, Or.inl h2.1⟩
    · exact ⟨c :: u, c2, by simp [hu], hc2⟩

theorem rotPlainAt_snoc (s : Str) (h : rotPlainAt s = true) :
    ∃ u c, s = u ++ [c] ∧ (isDigitC c = true ∨ c = '\n') := by
  have h2 : pyStartswith (str ".log_") s = true ∧ digitRunEnd (s.drop 5) = true := by
    simpa [rotPlainAt, Bool.and_eq_true] using h
  rcases (pyStartswith_iff _ s).mp h2.1 with ⟨t, rfl⟩
  have hdrop : (str ".log_" ++ t).drop 5 = t := rfl
  rw [hdrop] at h2
  rcases digitRunEnd_snoc t h2.2 with ⟨u, c, hu, hc⟩
  exact ⟨str ".log_" ++ u, c, by simp [hu], hc⟩

theorem rotPlainMatch_snoc : ∀ f : Str, rotPlainMatch f = true →
    ∃ u c, f = u ++ [c] ∧ (isDigitC c = true ∨ c = '\n')
  | [], h => by simp [rotPlainMatch] at h
  | c :: rest, h => by
    have h2 := h
    simp only [rotPlainMatch, Bool.or_eq_true, Bool.and_eq_true] at h2
    rcases h2 with hAt | ⟨_, hrec⟩
    · exact rotPlainAt_snoc _ hAt
    · rcases rotPlainMatch_snoc rest hrec with ⟨u, c2, hu, hc2⟩
      exact ⟨c :: u, c2, by simp [hu], hc2⟩

theorem revHead_of_snoc (u : Str) (c : Char) : ((u ++ [c]).reverse).head? = some c := by
  simp

theorem log_gz_incompatible (f : Str) (h1 : pyEndswith (str ".log") f = true)
    (h2 : pyEndswith (str ".gz") f = true) : False := by
  have a := endsWith_log_last f h1
  have b := endsWith_gz_last f h2
  rw [a] at b
  exact absurd (Option.some.inj b) (by decide)

theorem rotPlain_gz_incompatible (f : Str) (h1 : rotPlainMatch f = true)
    (h2 : pyEndswith (str ".gz") f = true) : False := by
  rcases rotPlainMatch_snoc f h1 with ⟨u, c, rfl, hc⟩
  have b := endsWith_gz_last _ h2
  rw [revHead_of_snoc] at b
  have hcz : c = 'z' := Option.some.inj b
  subst hcz
  rcases hc with hd | hn
  · exact absurd hd (by decide)
  · exact absurd hn (by decide)

theorem rotGzMatch_split : ∀ f : Str, rotGzMatch f = true →
    ∃ a t, f = a ++ str ".log.gz_" ++ t
  | [], h => by simp [rotGzMatch] at h
  | c :: rest, h => by
    have h2 := h
    simp only [rotGzMatch, Bool.or_eq_true, Bool.and_eq_true] at h2
    rcases h2 with hAt | ⟨_, hrec⟩
    · have h3 : pyStartswith (str ".log.gz_") (c :: rest) = true ∧
          headDigit ((c :: rest).drop 8) = true := by
        simpa [rotGzAt, Bool.and_eq_true] using hAt
      rcases (pyStartswith_iff _ _).mp h3.1 with ⟨t, ht⟩
      exact ⟨[], t, by simpa using ht⟩
    · rcases rotGzMatch_split rest hrec with ⟨a, t, ha⟩
      exact ⟨c :: a, t, by simp [ha]⟩

theorem contains_gz_of_rotGz (f : Str) (h : rotGzMatch f = true) :
    pyContains (str ".gz") f = true := by
  rcases rotGzMatch_split f h with ⟨a, t, rfl⟩
  refine (pyContains_iff _ _).mpr ⟨a ++ str ".log", str "_" ++ t, ?_⟩
  have hsplit : str ".log.gz_" = str ".log" ++ str ".gz" ++ str "_" := by decide
  rw [hsplit]
  simp

/-! Lemmas about the line-search loop. -/

theorem runSearchLoop_eq (patterns : List Str) : ∀ (lines : List Str) (acc : List MatchRec)
    (n : Nat) (failed : Bool),
    runSearchLoop patterns acc n lines failed =
      (if failed then Sum.inr (acc ++ searchLines patterns n lines)
       else Sum.inl (acc ++ searchLines patterns n lines))
  | [], acc, n, failed => by simp [runSearchLoop, searchLines]
  | l :: ls, acc, n, failed => by
    cases hfm : firstMatch patterns l with
    | some p =>
      simp only [runSearchLoop, searchLines, hfm]
      rw [runSearchLoop_eq patterns ls]
      simp
    | none =>
      simp only [runSearchLoop, searchLines, hfm]
      rw [runSearchLoop_eq patterns ls]
      simp

theorem search_in_file_eq (patterns : List Str) (content : FileRead) :
    search_in_file patterns content = searchLines patterns 1 content.lines := by
  unfold search_in_file
  rw [runSearchLoop_eq]
  cases content.failed <;> simp

theorem searchLines_bound (patterns : List Str) : ∀ (lines : List Str) (n : Nat) (x : MatchRec),
    x ∈ searchLines patterns n lines → n ≤ x.1
  | [], n, x, hx => by simp [searchLines] at hx
  | l :: ls, n, x, hx => by
    cases hfm : firstMatch patterns l with
    | some p =>
      simp only [searchLines, hfm] at hx
      rcases List.mem_cons.mp hx with rfl | hmem
      · exact Nat.le_refl n
      · exact Nat.le_of_succ_le (searchLines_bound patterns ls (n + 1) x hmem)
    | none =>
      simp only [searchLines, hfm] at hx
      exact Nat.le_of_succ_le (searchLines_bound patterns ls (n + 1) x hx)

theorem searchLines_chain (patterns : List Str) : ∀ (lines : List Str) (n : Nat),
    List.Chain' (fun a b : MatchRec => a.1 < b.1) (searchLines patterns n lines)
  | [], n => by simp [searchLines]
  | l :: ls, n => by
    cases hfm : firstMatch patterns l with
    | some p =>
      simp only [searchLines, hfm]
      refine List.chain'_cons'.mpr ⟨?_, searchLines_chain patterns ls (n + 1)⟩
      intro y hy
      have hmem : y ∈ searchLines patterns (n + 1) ls := List.mem_of_mem_head? hy
      exact Nat.lt_of_succ_le (searchLines_bound patterns ls (n + 1) y hmem)
    | none =>
      simp only [searchLines, hfm]
      exact searchLines_chain patterns ls (n + 1)

theorem firstMatch_spec (patterns : List Str) (line : Str) :
    match firstMatch patterns line with
    | some p => ∃ l1 l2, patterns = l1 ++ p :: l2 ∧ pyContains p line = true ∧
        ∀ q ∈ l1, pyContains q line = false
    | none => ∀ q ∈ patterns, pyContains q line = false := by
  induction patterns with
  | nil => simp [firstMatch]
  | cons p ps ih =>
    have hstep : firstMatch (p :: ps) line =
        if pyContains p line = true then some p else firstMatch ps line := rfl
    by_cases hp : pyContains p line = true
    · rw [hstep, if_pos hp]
      exact ⟨[], ps, rfl, hp, by simp⟩
    · have hp2 : pyContains p line = false := by
        cases h : pyContains p line with
        | false => rfl
        | true => exact absurd h hp
      rw [hstep, if_neg hp]
      cases hm : firstMatch ps line with
      | some q =>
        simp only [hm] at ih
        rcases ih with ⟨l1, l2, hsplit, hcont, hfalse⟩
        refine ⟨p :: l1, l2, by simp [hsplit], hcont, ?_⟩
        intro q2 hq2
        rcases List.mem_cons.mp hq2 with rfl | hq3
        · exact hp2
        · exact hfalse q2 hq3
      | none =>
        simp only [hm] at ih
        intro q hq
        rcases List.mem_cons.mp hq with rfl | hq2
        · exact hp2
        · exact ih q hq2

/-! Lemmas about the pipeline wiring. -/

theorem all_log_files_under_extraction (tmp : Str) (fs : List Str) :
    (all_log_files tmp fs).all
      (fun q => pyStartswith (extractionDirOf tmp ++ str "/") q) = true := by
  rw [List.all_eq_true]
  intro x hx
  rcases List.mem_append.mp hx with h | h
  · exact (List.mem_filter.mp (List.mem_filter.mp h).1).2
  · exact (List.mem_filter.mp (List.mem_filter.mp h).1).2

theorem under_extraction_of_child (tmp name : Str)
    (h : pyStartswith (extractionDirOf tmp ++ str "/") (tmp ++ str "/" ++ name) = true) :
    '/' ∈ name := by
  rcases (pyStartswith_iff _ _).mp h with ⟨t, ht⟩
  have hsplit : str "/extracted_content" = str "/" ++ str "extracted_content" := by decide
  simp only [extractionDirOf, hsplit, List.append_assoc] at ht
  have h3 := List.append_cancel_left ht
  have h4 := List.append_cancel_left h3
  rw [h4]
  refine List.mem_append.mpr (Or.inr ?_)
  exact List.mem_append.mpr (Or.inl (by decide))

theorem extractArchives_append (tmp : Str) : ∀ xs ys : List NestedArchive,
    extractArchives tmp (xs ++ ys) = extractArchives tmp xs ++ extractArchives tmp ys
  | [], ys => by simp [extractArchives]
  | x :: xs, ys => by
    simp [extractArchives, extractArchives_append tmp xs]

theorem setupOutputDir_eq (existed : Bool) (pre : List Str) :
    setupOutputDir existed pre = [str "extracted_logs"] := by
  cases existed <;> rfl

theorem startsWith_extracted (r : Str) :
    pyStartswith (str "extracted_logs") (str "extracted_logs/" ++ r) = true := by
  refine (pyStartswith_iff _ _).mpr ⟨str "/" ++ r, ?_⟩
  have hsplit : str "extracted_logs/" = str "extracted_logs" ++ str "/" := by decide
  rw [hsplit, List.append_assoc]

/-! Claim theorems. -/

/-- C1: `search_in_file` records at most one Match Record per line (line
numbers are strictly increasing), testing patterns in list order and
recording only the first pattern contained in the line; concretely, on the
file with lines `foo BAR`, `baz`, `foo` and patterns `foo`, `BAR` it returns
exactly a match at line 1 with pattern `foo` and a match at line 3 with
pattern `foo`, and nothing for line 2. -/
theorem c1_line_search_first_match :
    search_in_file [str "foo", str "BAR"]
        ⟨[str "foo BAR", str "baz", str "foo"], false⟩ =
      [(1, str "foo BAR", str "foo"), (3, str "foo", str "foo")] ∧
    (∀ (patterns : List Str) (content : FileRead),
      List.Chain' (fun a b : MatchRec => a.1 < b.1)
        (search_in_file patterns content)) ∧
    (∀ (patterns : List Str) (line : Str),
      match firstMatch patterns line with
      | some p => ∃ l1 l2, patterns = l1 ++ p :: l2 ∧ pyContains p line = true ∧
          ∀ q ∈ l1, pyContains q line = false
      | none => ∀ q ∈ patterns, pyContains q line = false) := by
  refine ⟨by decide, ?_, ?_⟩
  · intro patterns content
    rw [search_in_file_eq]
    exact searchLines_chain patterns content.lines 1
  · intro patterns line
    exact firstMatch_spec patterns line

/-- C1 witness: the first-pattern-wins characterization applied to the
pattern list `[foo, BAR]` and the line `foo BAR`. -/
theorem c1_line_search_first_match_witness :
    ∃ l1 l2, [str "foo", str "BAR"] = l1 ++ (str "foo") :: l2 ∧
      pyContains (str "foo") (str "foo BAR") = true ∧
      ∀ q ∈ l1, pyContains q (str "foo BAR") = false := by
  have h := c1_line_search_first_match.2.2 [str "foo", str "BAR"] (str "foo BAR")
  have e : firstMatch [str "foo", str "BAR"] (str "foo BAR") = some (str "foo") := by decide
  rw [e] at h
  exact h

/-- C2: `parse_timestamp_input` applied to `2025-07-14-08.25.22.214000`
returns exactly the six expected representations in order, the original
input first, with no duplicate entries. -/
theorem c2_expand_timestamp :
    parse_timestamp_input (str "2025-07-14-08.25.22.214000") =
      [str "2025-07-14-08.25.22.214000", str "2025-07-14T08:25:22",
       str "2025-07-14 08.25.22", str "2025-07-14 08:25:22",
       str "20250714082522", str "07/14/2025 08:25:22"] ∧
    (parse_timestamp_input (str "2025-07-14-08.25.22.214000")).Nodup := by
  constructor
  · decide
  · decide

/-- C3 counterexample: `is_compressed_file` is true of `a.tar.gz`, but the
classifier does not classify `a.tar.gz` as a compressed log, so the claimed
equivalence fails. -/
theorem c3_counterexample :
    is_compressed_file (str "a.tar.gz") = true ∧
    isCompressedLogName (pyBasename (str "a.tar.gz")) = false := by decide

/-- C3 amended: `is_compressed_file p` holds iff the classifier would
classify `p`'s basename as a compressed log, or `p`'s basename ends with
`.tar.gz`; the two predicates disagree exactly on `.tar.gz` names. -/
theorem c3_amended_is_compressed_iff : ∀ p : Str,
    is_compressed_file p =
      (isCompressedLogName (pyBasename p) ||
       pyEndswith (str ".tar.gz") (pyBasename p)) := by
  intro p
  simp only [is_compressed_file, isCompressedLogName]
  cases htg : pyEndswith (str ".tar.gz") (pyBasename p) with
  | false => simp [htg]
  | true =>
    have hgz : pyEndswith (str ".gz") (pyBasename p) = true :=
      tarGz_endsWith_gz (pyBasename p) htg
    simp [htg, hgz]

/-- C4 counterexample: a file whose line iterator yields one matching line
and then raises an I/O error contributes that match, not zero matches. -/
theorem c4_counterexample :
    (FileRead.mk [str "foo bar"] true).failed = true ∧
    search_in_file [str "foo"] ⟨[str "foo bar"], true⟩ =
      [(1, str "foo bar", str "foo")] := by decide

/-- C4 amended: an I/O failure while reading a file is caught and is
non-fatal; the file contributes exactly the matches accumulated from the
lines read before the failure — in particular zero matches when the failure
occurs on open, before any line is read. -/
theorem c4_amended_partial_matches : ∀ (patterns lines : List Str) (failed : Bool),
    search_in_file patterns ⟨lines, failed⟩ = searchLines patterns 1 lines ∧
    search_in_file patterns ⟨[], failed⟩ = [] := by
  intro patterns lines failed
  exact ⟨search_in_file_eq patterns ⟨lines, failed⟩,
    search_in_file_eq patterns ⟨[], failed⟩⟩

/-- C5 counterexample: a gzip-compressed tar archive with the conventional
name `archive.tar.gz` is rejected as invalid input by step 1 of `main`,
although the spec's acceptance rule accepts the `tar-gz` kind. -/
theorem c5_counterexample :
    step1 true false (str "archive.tar.gz") = Step1Result.invalidInput ∧
    specTopLevelAccept ArchiveKind.tarGz = true := by decide

/-- C5 amended: a file input is unpacked as the top-level archive exactly
when its name ends with `.tar`, independently of the archive's content
kind; since `tarfile.open` in mode `r` auto-detects compression, a
gzip-compressed tar named with suffix `.tar` is unpacked, while a valid
tar-gz archive named `*.tar.gz` is rejected as invalid input. -/
theorem c5_amended_tar_name_gate :
    (∀ p : Str, step1 true false p = Step1Result.extractedTar ↔
      pyEndswith (str ".tar") p = true) ∧
    step1 true false (str "x.tar") = Step1Result.extractedTar ∧
    tarOpenReadOk ArchiveKind.tarGz = true ∧
    step1 true false (str "a.tar.gz") = Step1Result.invalidInput := by
  refine ⟨?_, by decide, by decide, by decide⟩
  intro p
  cases h : pyEndswith (str ".tar") p with
  | false => simp [step1, h]
  | true => simp [step1, h]

/-- C6: classification (and hence searching, counting and copying, which
all start from the classified lists) only covers files beneath the
second-stage extraction directory: every classified file's path extends the
extraction directory, and a file lying directly in the unpack root (a path
`tmp/name` whose name has no separator) is never in the classified lists. -/
theorem c6_scope_of_search : ∀ (tmp : Str) (fs : List Str),
    ((all_log_files tmp fs).all
      (fun q => pyStartswith (extractionDirOf tmp ++ str "/") q) = true) ∧
    (∀ name : Str, '/' ∉ name → (tmp ++ str "/" ++ name) ∉ all_log_files tmp fs) := by
  intro tmp fs
  refine ⟨all_log_files_under_extraction tmp fs, ?_⟩
  intro name hname hmem
  have hall := List.all_eq_true.mp (all_log_files_under_extraction tmp fs) _ hmem
  exact hname (under_extraction_of_child tmp name hall)

/-- C6 witness: a log file directly in the unpack root is not classified
even when present in the filesystem next to extracted content. -/
theorem c6_scope_of_search_witness :
    (str "t" ++ str "/" ++ str "app.log") ∉
      all_log_files (str "t") [str "t/app.log", str "t/extracted_content/x.log"] :=
  (c6_scope_of_search (str "t")
    [str "t/app.log", str "t/extracted_content/x.log"]).2 (str "app.log") (by decide)

/-- C7 counterexample: in a tree containing `a.log.gz_1.log_2` and
`b.log.gz_1.tar.gz`, the first file is classified both as an uncompressed
log and as a compressed log (the sets are not disjoint), and the second is
a `.tar.gz` file classified as a compressed log. -/
theorem c7_counterexample :
    (str "e/a.log.gz_1.log_2") ∈
      find_log_files (str "e") [str "e/a.log.gz_1.log_2", str "e/b.log.gz_1.tar.gz"] ∧
    (str "e/a.log.gz_1.log_2") ∈
      find_compressed_log_files (str "e")
        [str "e/a.log.gz_1.log_2", str "e/b.log.gz_1.tar.gz"] ∧
    pyEndswith (str ".tar.gz") (str "e/b.log.gz_1.tar.gz") = true ∧
    (str "e/b.log.gz_1.tar.gz") ∈
      find_compressed_log_files (str "e")
        [str "e/a.log.gz_1.log_2", str "e/b.log.gz_1.tar.gz"] := by decide

/-- C7 amended: a filename is in both classification sets exactly when it
matches both the rotated-plain pattern and the rotated-compressed pattern;
a `.tar.gz` filename is never classified as an uncompressed log, and is
classified as a compressed log exactly when it matches the
rotated-compressed pattern. -/
theorem c7_amended_overlap : ∀ f : Str,
    (isUncompressedLogName f && isCompressedLogName f) =
      (rotPlainMatch f && rotGzMatch f) ∧
    (pyEndswith (str ".tar.gz") f && isUncompressedLogName f) = false ∧
    (pyEndswith (str ".tar.gz") f && isCompressedLogName f) =
      (pyEndswith (str ".tar.gz") f && rotGzMatch f) := by
  intro f
  refine ⟨?_, ?_, ?_⟩
  · simp only [isUncompressedLogName, isCompressedLogName]
    cases hR : rotGzMatch f with
    | true => simp [hR]
    | false =>
      cases hG : pyEndswith (str ".gz") f with
      | false => simp [hG]
      | true =>
        have hL : pyEndswith (str ".log") f = false := by
          cases h : pyEndswith (str ".log") f with
          | false => rfl
          | true => exact (log_gz_incompatible f h hG).elim
        have hRP : rotPlainMatch f = false := by
          cases h : rotPlainMatch f with
          | false => rfl
          | true => exact (rotPlain_gz_incompatible f h hG).elim
        simp [hG, hL, hRP]
  · cases hTG : pyEndswith (str ".tar.gz") f with
    | false => simp
    | true =>
      have hG := tarGz_endsWith_gz f hTG
      have hL : pyEndswith (str ".log") f = false := by
        cases h : pyEndswith (str ".log") f with
        | false => rfl
        | true => exact (log_gz_incompatible f h hG).elim
      have hRP : rotPlainMatch f = false := by
        cases h : rotPlainMatch f with
        | false => rfl
        | true => exact (rotPlain_gz_incompatible f h hG).elim
      simp [isUncompressedLogName, hL, hRP]
  · cases hTG : pyEndswith (str ".tar.gz") f with
    | false => simp
    | true => simp [isCompressedLogName, hTG]

/-- C8: a failing nested second-level archive is skipped: the extracted
file set is exactly as if that archive were absent, so the remaining
archives are still extracted and matches found in their files are still
searched and reported. -/
theorem c8_skip_failed_archive : ∀ (tmp : Str) (pre post : List NestedArchive)
    (bad : NestedArchive) (baseFs patterns : List Str) (readF : Str → FileRead),
    bad.ok = false →
    extractArchives tmp (pre ++ bad :: post) = extractArchives tmp (pre ++ post) ∧
    pipelineResults tmp baseFs (pre ++ bad :: post) patterns readF =
      pipelineResults tmp baseFs (pre ++ post) patterns readF := by
  intro tmp pre post bad baseFs patterns readF hbad
  have key : extractArchives tmp (pre ++ bad :: post) = extractArchives tmp (pre ++ post) := by
    rw [extractArchives_append, extractArchives_append]
    have h2 : extractArchives tmp (bad :: post) = extractArchives tmp post := by
      simp [extractArchives, hbad]
    rw [h2]
  refine ⟨key, ?_⟩
  unfold pipelineResults
  rw [key]

/-- C8 witness: with one good archive containing a matching log and one
corrupt archive, the pipeline result equals the result without the corrupt
archive. -/
theorem c8_skip_failed_archive_witness :
    extractArchives (str "t")
        ([NestedArchive.mk true [str "a.log"]] ++ NestedArchive.mk false [str "b.log"] :: []) =
      extractArchives (str "t") ([NestedArchive.mk true [str "a.log"]] ++ []) ∧
    pipelineResults (str "t") []
        ([NestedArchive.mk true [str "a.log"]] ++ NestedArchive.mk false [str "b.log"] :: [])
        [str "x"] (fun _ => ⟨[str "x"], false⟩) =
      pipelineResults (str "t") [] ([NestedArchive.mk true [str "a.log"]] ++ [])
        [str "x"] (fun _ => ⟨[str "x"], false⟩) :=
  c8_skip_failed_archive (str "t") [NestedArchive.mk true [str "a.log"]] []
    (NestedArchive.mk false [str "b.log"]) [] [str "x"]
    (fun _ => ⟨[str "x"], false⟩) rfl

/-- C9 counterexample: `app.gz.log` is classified and searched as an
uncompressed log (`is_compressed_file` is false, so it is dispatched to the
plain-text path), yet the report tags it `compressed`. -/
theorem c9_counterexample :
    isUncompressedLogName (str "app.gz.log") = true ∧
    is_compressed_file (str "app.gz.log") = false ∧
    reportFileType (str "app.gz.log") = str "compressed" := by decide

/-- C9 amended: the report tag is `compressed` exactly when the file's
relative path contains `.gz` as a substring; every file dispatched to the
decompressing path (basename satisfying `is_compressed_file`) is tagged
`compressed`, but the tag can also be `compressed` for files searched
uncompressed. -/
theorem c9_amended_report_tag :
    (∀ p : Str, reportFileType p = str "compressed" ↔
      pyContains (str ".gz") p = true) ∧
    (∀ f rel : Str, pyEndswith (pyBasename f) rel = true →
      is_compressed_file f = true → reportFileType rel = str "compressed") := by
  constructor
  · intro p
    cases hgz : pyContains (str ".gz") p with
    | true => simp [reportFileType, hgz]
    | false =>
      have hlg : pyContains (str ".log.gz_") p = false := by
        cases h : pyContains (str ".log.gz_") p with
        | false => rfl
        | true =>
          have h2 := contains_trans (str ".gz") (str ".log.gz_") p (by decide) h
          rw [hgz] at h2
          exact absurd h2 (by decide)
      simp only [reportFileType, hgz, hlg, Bool.or_self, Bool.false_eq_true, if_false]
      constructor
      · intro h
        exact absurd h (by decide)
      · intro h
        exact absurd h (by decide)
  · intro f rel hsuf hcomp
    have h0 : pyEndswith (str ".gz") (pyBasename f) = true ∨
        rotGzMatch (pyBasename f) = true := by
      simpa [is_compressed_file] using hcomp
    have hgz : pyContains (str ".gz") (pyBasename f) = true := by
      rcases h0 with h | h
      · exact contains_gz_of_endsWith_gz _ h
      · exact contains_gz_of_rotGz _ h
    have hrel : pyContains (str ".gz") rel = true :=
      contains_mono_suffix _ _ _ hsuf hgz
    simp [reportFileType, hrel]

/-- C9 witness: a file with basename `x.gz` reported under relative path
`d/x.gz` is tagged `compressed`. -/
theorem c9_amended_report_tag_witness :
    reportFileType (str "d/x.gz") = str "compressed" :=
  c9_amended_report_tag.2 (str "x.gz") (str "d/x.gz") (by decide) (by decide)

/-- C10: when the output directory already exists it is removed and
recreated before any processing, so the final output content is independent
of what the directory contained before the run, and after a completed run
every entry is either `result.txt` or lies under `extracted_logs`. -/
theorem c10_output_dir_replaced : ∀ (existed existed2 : Bool)
    (pre pre2 matchedRels : List Str),
    finalOutputDir existed pre matchedRels = finalOutputDir existed2 pre2 matchedRels ∧
    (finalOutputDir existed pre matchedRels).all
      (fun e => e == str "result.txt" || pyStartswith (str "extracted_logs") e) = true := by
  intro existed existed2 pre pre2 matchedRels
  constructor
  · unfold finalOutputDir
    rw [setupOutputDir_eq, setupOutputDir_eq]
  · unfold finalOutputDir writeResultFile copy_matching_files
    rw [setupOutputDir_eq]
    simp only [List.all_append, Bool.and_eq_true]
    refine ⟨⟨by decide, ?_⟩, by decide⟩
    rw [List.all_eq_true]
    intro x hx
    rcases List.mem_map.mp hx with ⟨r, _, rfl⟩
    simp [startsWith_extracted r]

end LogFinder

